import Mathlib

/-!
Shallow embedding of the SMA-crossover backtesting engine
(`src/backtester.py`, function `run_backtest`) over exact rational
arithmetic.  A price series is a `List ℚ` of daily closing prices;
pandas `NaN` cells (a rolling mean over an incomplete window) are
modelled as `Option.none`, and the `np.where` comparison semantics
(`NaN > x`, `x > NaN` and `NaN > NaN` are all false) is reflected in
`signal` returning `0` unless both averages are defined.
-/

namespace Backtester

/-- Portfolio state of one day: the `cash` and `shares` columns of the
dataframe. -/
structure PState where
  cash : ℚ
  shares : ℚ
deriving DecidableEq

/-- Rolling mean of window `w` ending at index `i`
(`df['Close'].rolling(window=w).mean()` at row `i`): the arithmetic mean
of `prices[i-w+1..i]`, `none` while fewer than `w` observations exist
(pandas default `min_periods = window`). -/
def sma (w : ℕ) (prices : List ℚ) (i : ℕ) : Option ℚ :=
  if w ≤ i + 1 then some (((prices.take (i + 1)).drop (i + 1 - w)).sum / w) else none

/-- The `Signal` column: `np.where(df['Short_SMA'] > df['Long_SMA'], 1.0, 0.0)`.
A comparison with a `NaN` operand is false, so the signal is `1` exactly
when both averages are defined and the short one is strictly greater. -/
def signal (short long : ℕ) (prices : List ℚ) (i : ℕ) : ℚ :=
  match sma short prices i, sma long prices i with
  | some s, some l => if l < s then 1 else 0
  | _, _ => 0

/-- The `Position` column: `df['Signal'].diff()`; `NaN` (here `none`) at
row 0, `Signal[i] - Signal[i-1]` afterwards. -/
def position (short long : ℕ) (prices : List ℚ) (i : ℕ) : Option ℚ :=
  match i with
  | 0 => none
  | j + 1 => some (signal short long prices (j + 1) - signal short long prices j)

/-- The portfolio simulation loop (`for i in range(1, len(df))`): day 0
holds `cash = initial_capital, shares = 0`; each later day carries the
previous day's state forward, buys with all cash on `Position == 1.0`
when the prior cash is positive, and sells all shares on
`Position == -1.0` when the prior shares are positive. -/
def portfolio (prices : List ℚ) (cap : ℚ) (short long : ℕ) : ℕ → PState
  | 0 => ⟨cap, 0⟩
  | i + 1 =>
    let prev := portfolio prices cap short long i
    let close := prices.getD (i + 1) 0
    if position short long prices (i + 1) = some 1 ∧ 0 < prev.cash then
      ⟨0, prev.shares + prev.cash / close⟩
    else if position short long prices (i + 1) = some (-1) ∧ 0 < prev.shares then
      ⟨prev.cash + prev.shares * close, 0⟩
    else prev

/-- The `total_value` column: initialised to `initial_capital` (row 0 is
never recomputed by the loop) and set to
`cash + shares * Close` for every row `i ≥ 1`. -/
def totalValue (prices : List ℚ) (cap : ℚ) (short long : ℕ) (i : ℕ) : ℚ :=
  match i with
  | 0 => cap
  | j + 1 =>
    (portfolio prices cap short long (j + 1)).cash +
      (portfolio prices cap short long (j + 1)).shares * prices.getD (j + 1) 0

/-- The summary metrics returned by `run_backtest`. -/
structure BacktestResult where
  finalValue : ℚ
  totalReturn : ℚ
  buyHoldValue : ℚ
  buyHoldReturn : ℚ
deriving DecidableEq

/-- Step 4 of `run_backtest`: `final_value = total_value.iloc[-1]`,
`total_return = (final_value / initial_capital - 1) * 100`,
`buy_and_hold_value = initial_capital * (Close[-1] / Close[0])`,
`buy_and_hold_return = (buy_and_hold_value / initial_capital - 1) * 100`. -/
def run_backtest (prices : List ℚ) (cap : ℚ) (short long : ℕ) : BacktestResult :=
  let fv := totalValue prices cap short long (prices.length - 1)
  let bh := cap * (prices.getD (prices.length - 1) 0 / prices.getD 0 0)
  ⟨fv, (fv / cap - 1) * 100, bh, (bh / cap - 1) * 100⟩

/-- A trade executes on day `i` exactly when one of the two branch
guards of the loop fires: a buy (`Position == 1.0` with positive prior
cash) or a sell (`Position == -1.0` with positive prior shares). -/
def tradeAt (prices : List ℚ) (cap : ℚ) (short long i : ℕ) : Prop :=
  0 < i ∧
    ((position short long prices i = some 1 ∧
        0 < (portfolio prices cap short long (i - 1)).cash) ∨
      (position short long prices i = some (-1) ∧
        0 < (portfolio prices cap short long (i - 1)).shares))

instance (prices : List ℚ) (cap : ℚ) (short long i : ℕ) :
    Decidable (tradeAt prices cap short long i) := by
  unfold tradeAt; infer_instance

/-- The derived per-day signal sequence, aligned with the price series. -/
def signalSeries (short long : ℕ) (prices : List ℚ) : List ℚ :=
  (List.range prices.length).map (signal short long prices)

/-- Number of `Enter` transitions (`Position == 1.0`) among days `0..k`. -/
def countEnters (short long : ℕ) (prices : List ℚ) : ℕ → ℕ
  | 0 => if position short long prices 0 = some 1 then 1 else 0
  | k + 1 =>
    countEnters short long prices k +
      if position short long prices (k + 1) = some 1 then 1 else 0

/-- Number of `Exit` transitions (`Position == -1.0`) among days `0..k`. -/
def countExits (short long : ℕ) (prices : List ℚ) : ℕ → ℕ
  | 0 => if position short long prices 0 = some (-1) then 1 else 0
  | k + 1 =>
    countExits short long prices k +
      if position short long prices (k + 1) = some (-1) then 1 else 0

/-- The signal column only takes the two values `0.0` and `1.0`. -/
lemma signal_eq_zero_or_one (short long : ℕ) (prices : List ℚ) (i : ℕ) :
    signal short long prices i = 0 ∨ signal short long prices i = 1 := by
  unfold signal
  rcases sma short prices i with _ | s
  · rcases sma long prices i with _ | l <;> exact Or.inl rfl
  · rcases sma long prices i with _ | l
    · exact Or.inl rfl
    · by_cases h : l < s
      · exact Or.inr (if_pos h)
      · exact Or.inl (if_neg h)

/-- While the long average is still undefined (`i + 1 < long`), the
`NaN` comparison makes the signal `0`. -/
lemma signal_eq_zero_of_undefined (short long : ℕ) (prices : List ℚ) (i : ℕ)
    (h : i + 1 < long) : signal short long prices i = 0 := by
  have hl : sma long prices i = none := by
    unfold sma
    rw [if_neg]
    omega
  unfold signal
  rw [hl]
  rcases sma short prices i with _ | s <;> rfl

/-- On every day of the simulation, cash and shares are never
simultaneously positive: the state starts all-cash, a buy zeroes the
cash, a sell zeroes the shares, and all other days carry the state
forward. -/
lemma cash_or_shares_zero (prices : List ℚ) (cap : ℚ) (short long : ℕ) :
    ∀ i, (portfolio prices cap short long i).cash = 0 ∨
      (portfolio prices cap short long i).shares = 0 := by
  intro i
  induction i with
  | zero => exact Or.inr rfl
  | succ j ih =>
    rw [portfolio]
    split
    · exact Or.inl rfl
    · split
      · exact Or.inr rfl
      · exact ih

/-- The rolling mean at index `i` is a function of `prices[0..i]` only. -/
lemma sma_congr (w : ℕ) (p q : List ℚ) (i : ℕ)
    (h : p.take (i + 1) = q.take (i + 1)) : sma w p i = sma w q i := by
  unfold sma
  rw [h]

/-- The signal at index `i` is a function of `prices[0..i]` only. -/
lemma signal_congr (short long : ℕ) (p q : List ℚ) (i : ℕ)
    (h : p.take (i + 1) = q.take (i + 1)) :
    signal short long p i = signal short long q i := by
  unfold signal
  rw [sma_congr short p q i h, sma_congr long p q i h]

/-- Agreement on a longer prefix restricts to agreement on a shorter one. -/
lemma take_eq_of_take_eq (p q : List ℚ) (m n : ℕ) (hmn : m ≤ n)
    (h : p.take n = q.take n) : p.take m = q.take m := by
  have := congrArg (List.take m) h
  simpa [List.take_take, Nat.min_eq_left hmn] using this

/-- The position (signal diff) at index `i` is a function of
`prices[0..i]` only. -/
lemma position_congr (short long : ℕ) (p q : List ℚ) (i : ℕ)
    (h : p.take (i + 1) = q.take (i + 1)) :
    position short long p i = position short long q i := by
  match i with
  | 0 => rfl
  | j + 1 =>
    have hj : p.take (j + 1) = q.take (j + 1) :=
      take_eq_of_take_eq p q (j + 1) (j + 2) (by omega) h
    simp only [position]
    rw [signal_congr short long p q (j + 1) h, signal_congr short long p q j hj]

/-- C1: on every day of the simulation the accounting identity
`totalValue = cash + shares * closePrice` holds exactly, and on every
day after at least one trade has occurred at most one of `cash > 0` and
`shares > 0` holds. -/
theorem C1_capital_invariant (prices : List ℚ) (cap : ℚ) (short long i : ℕ)
    (hi : i < prices.length) :
    totalValue prices cap short long i =
      (portfolio prices cap short long i).cash +
        (portfolio prices cap short long i).shares * prices.getD i 0 ∧
    ((∃ j, j ≤ i ∧ tradeAt prices cap short long j) →
      (portfolio prices cap short long i).cash = 0 ∨
        (portfolio prices cap short long i).shares = 0) := by
  refine ⟨?_, fun _ => cash_or_shares_zero prices cap short long i⟩
  cases i with
  | zero => simp [totalValue, portfolio]
  | succ j => rfl

/-- Witness for C1 on the series `[1, 10]` with windows 1/2, where a buy
executes on day 1. -/
theorem C1_capital_invariant_witness :
    1 < ([(1 : ℚ), 10]).length ∧
    (totalValue [(1 : ℚ), 10] 100 1 2 1 =
        (portfolio [(1 : ℚ), 10] 100 1 2 1).cash +
          (portfolio [(1 : ℚ), 10] 100 1 2 1).shares * ([(1 : ℚ), 10]).getD 1 0 ∧
      ((∃ j, j ≤ 1 ∧ tradeAt [(1 : ℚ), 10] 100 1 2 j) →
        (portfolio [(1 : ℚ), 10] 100 1 2 1).cash = 0 ∨
          (portfolio [(1 : ℚ), 10] 100 1 2 1).shares = 0)) :=
  ⟨by norm_num, C1_capital_invariant [(1 : ℚ), 10] 100 1 2 1 (by norm_num)⟩

/-- C2 counterexample: on the series `[1, 10]` with windows 1/2, day 1
carries an `Enter` transition (`Position = 1.0`) and executes a buy even
though the prior day's trend (day `0 < longWindow - 1`) is undefined. -/
theorem C2_counterexample :
    position 1 2 [(1 : ℚ), 10] 1 = some 1 ∧
    (1 : ℕ) - 1 < 2 - 1 ∧
    tradeAt [(1 : ℚ), 10] 100 1 2 1 ∧
    portfolio [(1 : ℚ), 10] 100 1 2 1 = ⟨0, 10⟩ := by
  refine ⟨?_, by norm_num, ?_, ?_⟩
  · norm_num [position, signal, sma]
  · refine ⟨by norm_num, Or.inl ⟨?_, by norm_num [portfolio]⟩⟩
    norm_num [position, signal, sma]
  · norm_num [portfolio, position, signal, sma]

/-- C2 amended: no transition occurs on any day whose own trend is still
undefined (`i < longWindow - 1`), and the very first day has
`transition = None`; at the boundary day `longWindow - 1` an `Enter` may
occur even though the prior day's trend is undefined, but never an
`Exit`. -/
theorem C2_amended (prices : List ℚ) (short long i : ℕ) (h : i < long - 1) :
    position short long prices 0 = none ∧
    (position short long prices i = none ∨ position short long prices i = some 0) ∧
    position short long prices (long - 1) ≠ some (-1) := by
  refine ⟨rfl, ?_, ?_⟩
  · cases i with
    | zero => exact Or.inl rfl
    | succ j =>
      right
      simp only [position]
      rw [signal_eq_zero_of_undefined short long prices (j + 1) (by omega),
        signal_eq_zero_of_undefined short long prices j (by omega)]
      norm_num
  · obtain ⟨k, hk⟩ : ∃ k, long - 1 = k + 1 := ⟨long - 2, by omega⟩
    rw [hk]
    simp only [position]
    intro hc
    have h0 : signal short long prices k = 0 :=
      signal_eq_zero_of_undefined short long prices k (by omega)
    rcases signal_eq_zero_or_one short long prices (k + 1) with h1 | h1 <;>
      rw [h1, h0] at hc <;> norm_num at hc

/-- Witness for the amended C2 on the series `[1, 10]` with windows 1/3
at day 1. -/
theorem C2_amended_witness :
    1 < 3 - 1 ∧
    (position 1 3 [(1 : ℚ), 10] 0 = none ∧
      (position 1 3 [(1 : ℚ), 10] 1 = none ∨
        position 1 3 [(1 : ℚ), 10] 1 = some 0) ∧
      position 1 3 [(1 : ℚ), 10] (3 - 1) ≠ some (-1)) :=
  ⟨by norm_num, C2_amended [(1 : ℚ), 10] 1 3 1 (by norm_num)⟩

/-- C3: no look-ahead — the rolling means, signal, and position at index
`i` depend only on the first `i + 1` closing prices: two series agreeing
there produce identical values at `i`. -/
theorem C3_no_lookahead (p q : List ℚ) (short long i : ℕ)
    (h : p.take (i + 1) = q.take (i + 1)) :
    sma short p i = sma short q i ∧ sma long p i = sma long q i ∧
    signal short long p i = signal short long q i ∧
    position short long p i = position short long q i :=
  ⟨sma_congr short p q i h, sma_congr long p q i h,
    signal_congr short long p q i h, position_congr short long p q i h⟩

/-- Witness for C3: `[1, 2, 3]` and `[1, 2, 7]` agree on indices `0..1`
and give the same values at index 1. -/
theorem C3_no_lookahead_witness :
    ([(1 : ℚ), 2, 3]).take 2 = ([(1 : ℚ), 2, 7]).take 2 ∧
    (sma 1 [(1 : ℚ), 2, 3] 1 = sma 1 [(1 : ℚ), 2, 7] 1 ∧
      sma 2 [(1 : ℚ), 2, 3] 1 = sma 2 [(1 : ℚ), 2, 7] 1 ∧
      signal 1 2 [(1 : ℚ), 2, 3] 1 = signal 1 2 [(1 : ℚ), 2, 7] 1 ∧
      position 1 2 [(1 : ℚ), 2, 3] 1 = position 1 2 [(1 : ℚ), 2, 7] 1) :=
  ⟨rfl, C3_no_lookahead [(1 : ℚ), 2, 3] [(1 : ℚ), 2, 7] 1 2 1 rfl⟩

/-- C10: while the long average is undefined (`i < longWindow - 1`), the
signal is the value `0.0`, not a distinct undefined value, because the
`NaN` comparison in `np.where` evaluates to false. -/
theorem C10_undefined_trend_is_zero (prices : List ℚ) (short long i : ℕ)
    (h : i < long - 1) : signal short long prices i = 0 :=
  signal_eq_zero_of_undefined short long prices i (by omega)

/-- Witness for C10 at index 1 of a 2-day series with `longWindow = 5`. -/
theorem C10_undefined_trend_is_zero_witness :
    1 < 5 - 1 ∧ signal 2 5 [(1 : ℚ), 2] 1 = 0 :=
  ⟨by norm_num, C10_undefined_trend_is_zero [(1 : ℚ), 2] 2 5 1 (by norm_num)⟩

/-- C4: the summary metrics satisfy the formulas of the code:
`finalValue` is the last day's `totalValue`,
`totalReturn = (finalValue / cap - 1) * 100`,
`buyHoldValue = cap * close[last] / close[first]`, and
`buyHoldReturn = (buyHoldValue / cap - 1) * 100`. -/
theorem C4_metrics (prices : List ℚ) (cap : ℚ) (short long : ℕ)
    (_h : prices ≠ []) :
    (run_backtest prices cap short long).finalValue =
      totalValue prices cap short long (prices.length - 1) ∧
    (run_backtest prices cap short long).totalReturn =
      ((run_backtest prices cap short long).finalValue / cap - 1) * 100 ∧
    (run_backtest prices cap short long).buyHoldValue =
      cap * prices.getD (prices.length - 1) 0 / prices.getD 0 0 ∧
    (run_backtest prices cap short long).buyHoldReturn =
      ((run_backtest prices cap short long).buyHoldValue / cap - 1) * 100 := by
  refine ⟨rfl, rfl, ?_, rfl⟩
  show cap * (prices.getD (prices.length - 1) 0 / prices.getD 0 0) = _
  rw [mul_div_assoc]

/-- Witness for C4 on the series `[1, 2]`. -/
theorem C4_metrics_witness :
    [(1 : ℚ), 2] ≠ [] ∧
    ((run_backtest [(1 : ℚ), 2] 100 1 2).finalValue =
        totalValue [(1 : ℚ), 2] 100 1 2 (([(1 : ℚ), 2]).length - 1) ∧
      (run_backtest [(1 : ℚ), 2] 100 1 2).totalReturn =
        ((run_backtest [(1 : ℚ), 2] 100 1 2).finalValue / 100 - 1) * 100 ∧
      (run_backtest [(1 : ℚ), 2] 100 1 2).buyHoldValue =
        100 * ([(1 : ℚ), 2]).getD (([(1 : ℚ), 2]).length - 1) 0 /
          ([(1 : ℚ), 2]).getD 0 0 ∧
      (run_backtest [(1 : ℚ), 2] 100 1 2).buyHoldReturn =
        ((run_backtest [(1 : ℚ), 2] 100 1 2).buyHoldValue / 100 - 1) * 100) :=
  ⟨by simp, C4_metrics [(1 : ℚ), 2] 100 1 2 (by simp)⟩

/-- A rolling mean is `none` exactly while its window is not yet full. -/
lemma sma_eq_none_iff (w : ℕ) (prices : List ℚ) (i : ℕ) (hw : 0 < w) :
    sma w prices i = none ↔ i < w - 1 := by
  unfold sma
  split <;> simp <;> omega

/-- C8: the signal sequence is aligned with the price series (same
length), and each rolling mean is undefined for exactly the first
`window - 1` entries and defined everywhere after. -/
theorem C8_alignment (prices : List ℚ) (short long : ℕ)
    (hs : 0 < short) (hl : 0 < long) :
    (signalSeries short long prices).length = prices.length ∧
    (∀ i, i < prices.length → (sma short prices i = none ↔ i < short - 1)) ∧
    (∀ i, i < prices.length → (sma long prices i = none ↔ i < long - 1)) :=
  ⟨by simp [signalSeries],
    fun i _ => sma_eq_none_iff short prices i hs,
    fun i _ => sma_eq_none_iff long prices i hl⟩

/-- Witness for C8 on a 3-day series with windows 1/2. -/
theorem C8_alignment_witness :
    0 < 1 ∧ 0 < 2 ∧
    ((signalSeries 1 2 [(1 : ℚ), 2, 3]).length = ([(1 : ℚ), 2, 3]).length ∧
      (∀ i, i < ([(1 : ℚ), 2, 3]).length →
        (sma 1 [(1 : ℚ), 2, 3] i = none ↔ i < 1 - 1)) ∧
      (∀ i, i < ([(1 : ℚ), 2, 3]).length →
        (sma 2 [(1 : ℚ), 2, 3] i = none ↔ i < 2 - 1))) :=
  ⟨by norm_num, by norm_num,
    C8_alignment [(1 : ℚ), 2, 3] 1 2 (by norm_num) (by norm_num)⟩

/-- The running count of `Enter` transitions minus `Exit` transitions up
to day `k` telescopes to the signal value at day `k`. -/
lemma count_diff_eq_signal (short long : ℕ) (prices : List ℚ)
    (hs : 0 < short) (hsl : short < long) (k : ℕ) :
    (countEnters short long prices k : ℚ) - countExits short long prices k =
      signal short long prices k := by
  induction k with
  | zero =>
    have h0 : position short long prices 0 = none := rfl
    have hsig : signal short long prices 0 = 0 :=
      signal_eq_zero_of_undefined short long prices 0 (by omega)
    simp [countEnters, countExits, h0, hsig]
  | succ k ih =>
    have hpos : position short long prices (k + 1) =
        some (signal short long prices (k + 1) - signal short long prices k) := rfl
    rcases signal_eq_zero_or_one short long prices (k + 1) with ha | ha <;>
      rcases signal_eq_zero_or_one short long prices k with hb | hb <;>
      · rw [hb] at ih
        simp only [countEnters, countExits, hpos, ha, hb]
        push_cast
        norm_num
        linarith

/-- C5: in every prefix of the series the number of `Enter` transitions
minus the number of `Exit` transitions is 0 or 1. -/
theorem C5_transition_parity (prices : List ℚ) (short long : ℕ)
    (hs : 0 < short) (hsl : short < long) (k : ℕ) :
    (countEnters short long prices k : ℤ) - countExits short long prices k = 0 ∨
    (countEnters short long prices k : ℤ) - countExits short long prices k = 1 := by
  have h := count_diff_eq_signal short long prices hs hsl k
  rcases signal_eq_zero_or_one short long prices k with h0 | h0 <;> rw [h0] at h
  · left
    have hEq : countEnters short long prices k = countExits short long prices k := by
      exact_mod_cast sub_eq_zero.mp h
    omega
  · right
    have hq : (countEnters short long prices k : ℚ) =
        countExits short long prices k + 1 := by linarith
    have hEq : countEnters short long prices k =
        countExits short long prices k + 1 := by exact_mod_cast hq
    omega

/-- Witness for C5 on `[1, 10]` with windows 1/2 up to day 1, where one
`Enter` and no `Exit` has occurred. -/
theorem C5_transition_parity_witness :
    0 < 1 ∧ 1 < 2 ∧
    ((countEnters 1 2 [(1 : ℚ), 10] 1 : ℤ) - countExits 1 2 [(1 : ℚ), 10] 1 = 0 ∨
      (countEnters 1 2 [(1 : ℚ), 10] 1 : ℤ) - countExits 1 2 [(1 : ℚ), 10] 1 = 1) :=
  ⟨by norm_num, by norm_num,
    C5_transition_parity [(1 : ℚ), 10] 1 2 (by norm_num) (by norm_num) 1⟩

/-- On a constant series, a rolling mean equals the constant as soon as
its window is full. -/
lemma sma_replicate (w n i : ℕ) (c : ℚ) (hw : 0 < w) (hi : i < n) :
    sma w (List.replicate n c) i = if w ≤ i + 1 then some c else none := by
  unfold sma
  split
  · next h =>
    congr 1
    rw [List.take_replicate, Nat.min_eq_left (by omega), List.drop_replicate]
    have hlen : i + 1 - (i + 1 - w) = w := by omega
    rw [hlen, List.sum_replicate, nsmul_eq_mul]
    exact mul_div_cancel_left₀ c (Nat.cast_ne_zero.mpr (by omega))
  · rfl

/-- On a constant series the signal is `0` on every day: equal averages
never satisfy the strict comparison. -/
lemma signal_replicate (short long n i : ℕ) (c : ℚ)
    (hs : 0 < short) (hl : 0 < long) (hi : i < n) :
    signal short long (List.replicate n c) i = 0 := by
  unfold signal
  rw [sma_replicate short n i c hs hi, sma_replicate long n i c hl hi]
  by_cases h1 : short ≤ i + 1 <;> by_cases h2 : long ≤ i + 1 <;>
    simp [h1, h2]

/-- On a constant series the portfolio never trades: every day keeps the
initial all-cash state. -/
lemma portfolio_replicate (short long n : ℕ) (c cap : ℚ)
    (hs : 0 < short) (hl : 0 < long) :
    ∀ i, i < n → portfolio (List.replicate n c) cap short long i = ⟨cap, 0⟩ := by
  intro i
  induction i with
  | zero => intro _; rfl
  | succ j ih =>
    intro hj
    have hpos : position short long (List.replicate n c) (j + 1) = some 0 := by
      simp only [position, signal_replicate short long n (j + 1) c hs hl hj,
        signal_replicate short long n j c hs hl (by omega)]
      norm_num
    rw [portfolio]
    simp [hpos, ih (by omega)]

/-- C9: on a constant positive price series of length at least
`longWindow` with valid windows and positive capital, the trend is false
on every day, no day carries an `Enter` or `Exit` transition, the final
portfolio value is exactly the initial capital, and the buy-and-hold
return is `0`. -/
theorem C9_constant_series (n : ℕ) (c cap : ℚ) (short long : ℕ)
    (hc : 0 < c) (hcap : 0 < cap) (hs : 0 < short) (hsl : short < long)
    (hn : long ≤ n) :
    (∀ i, i < n → signal short long (List.replicate n c) i = 0) ∧
    (∀ i, i < n → position short long (List.replicate n c) i = none ∨
      position short long (List.replicate n c) i = some 0) ∧
    (run_backtest (List.replicate n c) cap short long).finalValue = cap ∧
    (run_backtest (List.replicate n c) cap short long).buyHoldReturn = 0 := by
  have hl : 0 < long := by omega
  have hn2 : 2 ≤ n := by omega
  have hc' : c ≠ 0 := ne_of_gt hc
  have hcap' : cap ≠ 0 := ne_of_gt hcap
  refine ⟨fun i hi => signal_replicate short long n i c hs hl hi, ?_, ?_, ?_⟩
  · intro i hi
    cases i with
    | zero => exact Or.inl rfl
    | succ j =>
      right
      simp only [position, signal_replicate short long n (j + 1) c hs hl hi,
        signal_replicate short long n j c hs hl (by omega)]
      norm_num
  · show totalValue (List.replicate n c) cap short long
      ((List.replicate n c).length - 1) = cap
    rw [List.length_replicate]
    obtain ⟨k, hk⟩ : ∃ k, n - 1 = k + 1 := ⟨n - 2, by omega⟩
    rw [hk]
    simp only [totalValue]
    rw [portfolio_replicate short long n c cap hs hl (k + 1) (by omega)]
    simp
  · show (cap * ((List.replicate n c).getD ((List.replicate n c).length - 1) 0 /
      (List.replicate n c).getD 0 0) / cap - 1) * 100 = 0
    rw [List.length_replicate]
    have e1 : (List.replicate n c).getD (n - 1) 0 = c := by
      simp [List.getD, List.getElem?_replicate, show n - 1 < n by omega]
    have e2 : (List.replicate n c).getD 0 0 = c := by
      simp [List.getD, List.getElem?_replicate, show 0 < n by omega]
    rw [e1, e2, div_self hc', mul_one, div_self hcap']
    norm_num

/-- Witness for C9 on the constant series `[7, 7, 7]` with windows 1/2. -/
theorem C9_constant_series_witness :
    (0 : ℚ) < 7 ∧ (0 : ℚ) < 100 ∧ 0 < 1 ∧ 1 < 2 ∧ 2 ≤ 3 ∧
    ((∀ i, i < 3 → signal 1 2 (List.replicate 3 (7 : ℚ)) i = 0) ∧
      (∀ i, i < 3 → position 1 2 (List.replicate 3 (7 : ℚ)) i = none ∨
        position 1 2 (List.replicate 3 (7 : ℚ)) i = some 0) ∧
      (run_backtest (List.replicate 3 (7 : ℚ)) 100 1 2).finalValue = 100 ∧
      (run_backtest (List.replicate 3 (7 : ℚ)) 100 1 2).buyHoldReturn = 0) :=
  ⟨by norm_num, by norm_num, by norm_num, by norm_num, by norm_num,
    C9_constant_series 3 7 100 1 2 (by norm_num) (by norm_num) (by norm_num)
      (by norm_num) (by norm_num)⟩

/-- C6 counterexample: on the 2-day series `[1, 2]` with
`longWindow = 5` the code does not fail: it produces a full portfolio
sequence and metrics — a silent no-trade run with
`finalValue = initialCapital`. -/
theorem C6_counterexample :
    run_backtest [(1 : ℚ), 2] 100 2 5 = ⟨100, 0, 200, 100⟩ ∧
    portfolio [(1 : ℚ), 2] 100 2 5 1 = ⟨100, 0⟩ ∧
    ([(1 : ℚ), 2]).length < 5 := by
  refine ⟨?_, ?_, by norm_num⟩
  · norm_num [run_backtest, totalValue, portfolio, position, signal, sma]
  · norm_num [portfolio, position, signal, sma]

/-- C6 amended: `run_backtest` performs no history-length validation;
on a non-empty series shorter than `longWindow` it completes normally
with zero trades, every day keeping `cash = initialCapital, shares = 0`,
and reports `finalValue = initialCapital`. -/
theorem C6_amended (prices : List ℚ) (cap : ℚ) (short long : ℕ)
    (h0 : prices ≠ []) (hlen : prices.length < long) :
    (∀ i, i < prices.length → portfolio prices cap short long i = ⟨cap, 0⟩) ∧
    (run_backtest prices cap short long).finalValue = cap := by
  have hpos0 : 0 < prices.length := List.length_pos.mpr h0
  have hsig : ∀ i, i < prices.length → signal short long prices i = 0 :=
    fun i hi => signal_eq_zero_of_undefined short long prices i (by omega)
  have hport : ∀ i, i < prices.length →
      portfolio prices cap short long i = ⟨cap, 0⟩ := by
    intro i
    induction i with
    | zero => intro _; rfl
    | succ j ih =>
      intro hj
      have hpos : position short long prices (j + 1) = some 0 := by
        simp only [position, hsig (j + 1) hj, hsig j (by omega)]
        norm_num
      rw [portfolio]
      simp [hpos, ih (by omega)]
  refine ⟨hport, ?_⟩
  show totalValue prices cap short long (prices.length - 1) = cap
  rcases hl : prices.length - 1 with _ | k
  · rfl
  · simp only [totalValue]
    rw [hport (k + 1) (by omega)]
    simp

/-- Witness for the amended C6 on the series `[1, 2]` with
`longWindow = 5`. -/
theorem C6_amended_witness :
    [(1 : ℚ), 2] ≠ [] ∧ ([(1 : ℚ), 2]).length < 5 ∧
    ((∀ i, i < ([(1 : ℚ), 2]).length →
        portfolio [(1 : ℚ), 2] 100 2 5 i = ⟨100, 0⟩) ∧
      (run_backtest [(1 : ℚ), 2] 100 2 5).finalValue = 100) :=
  ⟨by simp, by norm_num,
    C6_amended [(1 : ℚ), 2] 100 2 5 (by simp) (by norm_num)⟩

/-- C7 counterexample: with `shortWindow = 3 ≥ longWindow = 2` on the
series `[1, 2, 3, 4]` the code does not fail with any error: it runs to
completion and produces metrics. -/
theorem C7_counterexample :
    run_backtest [(1 : ℚ), 2, 3, 4] 100 3 2 = ⟨100, 0, 400, 300⟩ ∧
    (2 : ℕ) ≤ 3 := by
  refine ⟨?_, by norm_num⟩
  norm_num [run_backtest, totalValue, portfolio, position, signal, sma]

/-- C7 amended: `run_backtest` performs no window validation; even with
`shortWindow ≥ longWindow` the computation proceeds normally, producing
the usual metrics, and the portfolio state still keeps cash and shares
never simultaneously positive. -/
theorem C7_amended (prices : List ℚ) (cap : ℚ) (short long : ℕ)
    (_h : long ≤ short) :
    (run_backtest prices cap short long).finalValue =
      totalValue prices cap short long (prices.length - 1) ∧
    (run_backtest prices cap short long).totalReturn =
      ((run_backtest prices cap short long).finalValue / cap - 1) * 100 ∧
    (run_backtest prices cap short long).buyHoldValue =
      cap * (prices.getD (prices.length - 1) 0 / prices.getD 0 0) ∧
    (∀ i, (portfolio prices cap short long i).cash = 0 ∨
      (portfolio prices cap short long i).shares = 0) :=
  ⟨rfl, rfl, rfl, cash_or_shares_zero prices cap short long⟩

/-- Witness for the amended C7 with `shortWindow = 3, longWindow = 2`. -/
theorem C7_amended_witness :
    (2 : ℕ) ≤ 3 ∧
    ((run_backtest [(1 : ℚ), 2, 3, 4] 100 3 2).finalValue =
        totalValue [(1 : ℚ), 2, 3, 4] 100 3 2 (([(1 : ℚ), 2, 3, 4]).length - 1) ∧
      (run_backtest [(1 : ℚ), 2, 3, 4] 100 3 2).totalReturn =
        ((run_backtest [(1 : ℚ), 2, 3, 4] 100 3 2).finalValue / 100 - 1) * 100 ∧
      (run_backtest [(1 : ℚ), 2, 3, 4] 100 3 2).buyHoldValue =
        100 * (([(1 : ℚ), 2, 3, 4]).getD (([(1 : ℚ), 2, 3, 4]).length - 1) 0 /
          ([(1 : ℚ), 2, 3, 4]).getD 0 0) ∧
      (∀ i, (portfolio [(1 : ℚ), 2, 3, 4] 100 3 2 i).cash = 0 ∨
        (portfolio [(1 : ℚ), 2, 3, 4] 100 3 2 i).shares = 0)) :=
  ⟨by norm_num, C7_amended [(1 : ℚ), 2, 3, 4] 100 3 2 (by norm_num)⟩

end Backtester
